import Mathlib

/-!
Shallow embedding of the simple-people-benchmark repository
(src/benchmark.py, src/metrics.py, src/graders/people.py,
src/searchers/parallel.py) together with theorems checking the
natural-language specification against it.

Conventions of the embedding:
* Python floats are embedded as rationals; all the float values the core
  produces and compares (0.0, 1.0, 0.5 thresholds, arithmetic means) are
  exact, so rational arithmetic is faithful.
* Fallible calls to external services (search providers, the LLM grader,
  the content fetch) are embedded as `Except`-valued oracles passed in as
  parameters; `Except.error` models a raised exception.
* `asyncio.gather` with the default `return_exceptions=False` is embedded
  by `gatherExcept`: it returns the list of results in input order, or the
  error of a failing task.
* Dict payloads the core never inspects (`metadata`) are embedded as lists
  of string pairs.
-/

/-- Query record (benchmark.py, class Query). -/
structure Query where
  query_id : String
  text : String
  bucket : String := ""
  metadata : List (String × String) := []
deriving Repr, DecidableEq

/-- SearchResult (searchers/base.py). The metadata mapping is an opaque
payload for the core, embedded as string pairs. -/
structure SearchResult where
  url : String := ""
  title : String := ""
  text : String := ""
  metadata : List (String × String) := []
deriving Repr, DecidableEq

/-- One grade record: the dict built in Benchmark._grade (benchmark.py
line 103) with keys query_id, rank (1-based) and is_match. All three keys
are always present there, so they are total fields here. -/
structure Grade where
  query_id : String
  rank : Nat
  is_match : ℚ
deriving Repr, DecidableEq

/-- RetrievalMetrics (metrics.py lines 5-10). The source field `match` is a
Lean keyword, hence `match_`. -/
structure RetrievalMetrics where
  match_ : ℚ
  recall_at_10 : ℚ
  precision : ℚ
  num_queries : Nat
deriving Repr, DecidableEq

/-- The match test of the source: `is_match >= 1.0` (metrics.py lines 28
and 37). -/
def isMatchGrade (g : Grade) : Bool := decide (1 ≤ g.is_match)

/-- Ordered insertion by rank, auxiliary for the per-group sort. -/
def insertByRank (g : Grade) : List Grade → List Grade
  | [] => [g]
  | h :: t => if g.rank ≤ h.rank then g :: h :: t else h :: insertByRank g t

/-- The per-group sort `query_grades.sort(key=lambda x: x.get("rank", 0))`
(metrics.py line 22): a stable sort by the rank key.  Insertion sort with
`≤` on the key is stable, hence extensionally the same list as Python's
stable sort.  The 0 default of the source is never exercised because the
rank key is a total field. -/
def sortByRank : List Grade → List Grade
  | [] => []
  | g :: t => insertByRank g (sortByRank t)

/-- first_match_rank (metrics.py lines 26-30): the rank of the first grade
of the rank-sorted group with `is_match >= 1.0`, if any.  The source
fallback `query_grades.index(g) + 1` for a missing rank key is never
exercised because the rank key is a total field. -/
def firstMatchRank (sorted : List Grade) : Option Nat :=
  (sorted.find? isMatchGrade).map (fun g => g.rank)

/-- Per-query contribution (metrics.py lines 25-40).  The recall test
mirrors Python truthiness: `if first_match_rank and first_match_rank <= 10`
is false when first_match_rank is None or 0. -/
def queryContribution (group : List Grade) : ℚ × ℚ × ℚ :=
  let sorted := sortByRank group
  let fmr := firstMatchRank sorted
  let matchContribution : ℚ := if fmr = some 1 then 1 else 0
  let recallContribution : ℚ :=
    match fmr with
    | some r => if r ≠ 0 ∧ r ≤ 10 then 1 else 0
    | none => 0
  let nResults := sorted.length
  let nMatches := sorted.countP isMatchGrade
  let precisionContribution : ℚ :=
    if 0 < nResults then (nMatches : ℚ) / (nResults : ℚ) else 0
  (matchContribution, recallContribution, precisionContribution)

/-- One step of the grouping loop of metrics.py lines 14-19: append the
grade to the group of its query_id, or open a new group at the end
(Python dicts preserve insertion order). -/
def addToGroup : List (String × List Grade) → Grade → List (String × List Grade)
  | [], g => [(g.query_id, [g])]
  | (q, gs) :: t, g =>
    if q = g.query_id then (q, gs ++ [g]) :: t else (q, gs) :: addToGroup t g

/-- by_query (metrics.py lines 14-19): grades grouped by query_id, groups in
first-occurrence order of the query ids. -/
def groupByQuery (grades : List Grade) : List (String × List Grade) :=
  grades.foldl addToGroup []

/-- The final reduction of metrics.py lines 42-51: arithmetic means of the
per-query contributions, all zero when there are no groups. -/
def metricsFromContributions (contributions : List (ℚ × ℚ × ℚ)) : RetrievalMetrics :=
  let n := contributions.length
  if n = 0 then ⟨0, 0, 0, 0⟩
  else
    ⟨(contributions.map (fun c => c.1)).sum / (n : ℚ),
     (contributions.map (fun c => c.2.1)).sum / (n : ℚ),
     (contributions.map (fun c => c.2.2)).sum / (n : ℚ),
     n⟩

/-- compute_retrieval_metrics (metrics.py lines 13-51). -/
def compute_retrieval_metrics (grades : List Grade) : RetrievalMetrics :=
  metricsFromContributions ((groupByQuery grades).map (fun p => queryContribution p.2))

/-- Distinct elements of a list in first-occurrence order (the key order of
a Python dict built by insertion). -/
def firstKeys : List String → List String
  | [] => []
  | q :: t => q :: firstKeys (t.filter (fun x => x ≠ q))
termination_by l => l.length
decreasing_by
  simp only [List.length_cons]
  exact Nat.lt_succ_of_le (List.length_filter_le _ _)

/-- Modelled from the spec, section 4.1 step 1: the query groups, one per
distinct query_id, each group holding the grades of that id. -/
def specGroups (grades : List Grade) : List (List Grade) :=
  (firstKeys (grades.map (fun g => g.query_id))).map
    (fun q => grades.filter (fun g => decide (g.query_id = q)))

/-- Minimum of a list of naturals, none for the empty list. -/
def minOfList (l : List Nat) : Option Nat :=
  l.foldr
    (fun r acc =>
      match acc with
      | none => some r
      | some m => some (min r m)) none

/-- Modelled from the spec, section 4.1 step 3: the lowest rank among the
grades of the group with `is_match == 1.0`, or none. -/
def specFirstMatchRank (group : List Grade) : Option Nat :=
  minOfList ((group.filter (fun g => decide (g.is_match = 1))).map (fun g => g.rank))

/-- Modelled from the spec, section 4.1 step 4: the per-query contribution
(match, recall_10, precision). -/
def specQueryContribution (group : List Grade) : ℚ × ℚ × ℚ :=
  let fmr := specFirstMatchRank group
  let matchContribution : ℚ := if fmr = some 1 then 1 else 0
  let recallContribution : ℚ :=
    match fmr with
    | some r => if r ≤ 10 then 1 else 0
    | none => 0
  let nMatches := group.countP (fun g => decide (g.is_match = 1))
  let precisionContribution : ℚ :=
    if group.length = 0 then 0 else (nMatches : ℚ) / (group.length : ℚ)
  (matchContribution, recallContribution, precisionContribution)

/-- Modelled from the spec, section 4.1 step 5: the reference Metrics
Aggregator, written from the words of the spec to be compared with
compute_retrieval_metrics. -/
def spec_retrieval_metrics (grades : List Grade) : RetrievalMetrics :=
  metricsFromContributions ((specGroups grades).map specQueryContribution)

/-- The structured judgment of the LLM grader (graders/people.py, class
PeopleGradeResult): an explanation and a score in [0, 1]. -/
structure PeopleGradeResult where
  explanation : String
  score : ℚ
deriving Repr, DecidableEq

/-- GradeResult (graders/base.py): a mapping of score names to values; the
details mapping is never populated by the people grader. -/
structure GradeResult where
  scores : List (String × ℚ)
  details : List (String × String) := []
deriving Repr, DecidableEq

/-- The single score key the people grader writes and Benchmark._grade
reads back. -/
def isMatchKey : String := "is_match"

namespace PeopleGrader

/-- PeopleGrader.grade (graders/people.py lines 61-85).  The judgment
parameter models the outcome of the LLM call together with the parse of its
response: ok with the parsed result, or error for any raised exception
(API failure, unparseable judgment, the failed assertion on a null parse).
The try/except of the source catches every exception and degrades to an
is_match score of 0.0; a successful judgment is thresholded at 0.5. -/
def grade (judgment : Except String PeopleGradeResult) : GradeResult :=
  match judgment with
  | .ok parsed => ⟨[(isMatchKey, if 1/2 ≤ parsed.score then 1 else 0)], []⟩
  | .error _ => ⟨[(isMatchKey, 0)], []⟩

end PeopleGrader

/-- The body of grade_one (benchmark.py lines 100-103): run the grader on
one result and build the grade dict from its is_match score (the semaphore
acquisition around the call does not change the value produced). -/
def gradeOne (judge : Nat → SearchResult → Except String PeopleGradeResult)
    (q : Query) (rank : Nat) (r : SearchResult) : Grade :=
  let g := PeopleGrader.grade (judge rank r)
  ⟨q.query_id, rank, (g.scores.lookup isMatchKey).getD 0⟩

/-- The enumerate(results, 1) loop of Benchmark._grade: one grade per
result, ranks 1, 2, ... in list order. -/
def gradeResults (judge : Nat → SearchResult → Except String PeopleGradeResult)
    (q : Query) : Nat → List SearchResult → List Grade
  | _, [] => []
  | rank, r :: rest => gradeOne judge q rank r :: gradeResults judge q (rank + 1) rest

/-- Benchmark._grade (benchmark.py lines 99-105).  asyncio.gather returns
the grade of each result in input order, and PeopleGrader.grade never
raises, so the whole call is a total function of the inputs; the judge
oracle supplies the LLM outcome for each (rank, result) pair. -/
def Benchmark.grade (judge : Nat → SearchResult → Except String PeopleGradeResult)
    (q : Query) (results : List SearchResult) : List Grade :=
  gradeResults judge q 1 results

/-- The url list `[r.url for r in results if r.url]` passed to
fetch_exa_contents (benchmark.py line 84); Python truthiness of a string is
being nonempty. -/
def urlsOf (results : List SearchResult) : List String :=
  (results.filter (fun r => r.url != "")).map (fun r => r.url)

/-- enrich_results (benchmark.py lines 82-90).  The fetch parameter models
fetch_exa_contents: given the urls, it raises (error) or returns the
url-to-text mapping; urls absent from the mapping fall back to the original
text via `contents.get(r.url, r.text)`. -/
def enrich_results (fetch : List String → Except Unit (String → Option String))
    (results : List SearchResult) : List SearchResult :=
  match fetch (urlsOf results) with
  | .error _ => results
  | .ok contents =>
    results.map (fun r => ⟨r.url, r.title, (contents r.url).getD r.text, r.metadata⟩)

/-- asyncio.gather with the default return_exceptions=False (as used in
benchmark.py lines 105, 126 and 165): the results of all tasks in input
order, or the error of a failing task propagated to the awaiter. -/
def gatherExcept {α : Type} : List (Except Unit α) → Except Unit (List α)
  | [] => .ok []
  | .error e :: _ => .error e
  | .ok a :: rest => (gatherExcept rest).map (fun l => a :: l)

/-- A searcher as the orchestrator sees it (searchers/base.py): a stable
name and a fallible search call from (query text, result count) to an
ordered result list. -/
structure SearcherModel where
  name : String
  search : String → Nat → Except Unit (List SearchResult)

/-- BenchmarkConfig (benchmark.py lines 32-37). -/
structure BenchmarkConfig where
  limit : Option Nat := none
  num_results : Nat := 10
  output_file : Option String := none
  enrich_exa_contents : Bool := false

/-- The per-query unit of work `process` in Benchmark._run_searcher
(benchmark.py lines 118-124): search, optional enrichment, grading.  There
is no try/except here: an error of the search call propagates out of the
unit.  The semaphore acquisition bounds timing only, not the value. -/
def processQuery (s : SearcherModel) (cfg : BenchmarkConfig)
    (fetch : List String → Except Unit (String → Option String))
    (judge : Query → Nat → SearchResult → Except String PeopleGradeResult)
    (q : Query) : Except Unit (List Grade) :=
  match s.search q.text cfg.num_results with
  | .error e => .error e
  | .ok results =>
    let results := if cfg.enrich_exa_contents then enrich_results fetch results else results
    .ok (Benchmark.grade (judge q) q results)

/-- Benchmark._run_searcher (benchmark.py lines 107-127): gather the
per-query units; on success the searcher's grade list is the concatenation
of the per-query grade lists (the source accumulates them into one flat
list; concatenation order across queries is scheduling-dependent, which by
the order-independence of the aggregator does not affect the metrics). -/
def runSearcher (s : SearcherModel) (cfg : BenchmarkConfig)
    (fetch : List String → Except Unit (String → Option String))
    (judge : Query → Nat → SearchResult → Except String PeopleGradeResult)
    (queries : List Query) : Except Unit (List Grade) :=
  (gatherExcept (queries.map (processQuery s cfg fetch judge))).map
    (fun gradeLists => gradeLists.flatten)

/-- The value Benchmark.run returns (benchmark.py lines 129-180): the bare
empty dict for an empty query list, or a report dict with config and
searchers entries. -/
inductive RunReport where
  | empty : RunReport
  | full : Option Nat → List (String × RetrievalMetrics) → RunReport
deriving Repr, DecidableEq

/-- How callers read the searchers mapping of a report: `.get("searchers",
an empty dict)` as in _print_summary (benchmark.py line 185). -/
def RunReport.searchersOf : RunReport → List (String × RetrievalMetrics)
  | .empty => []
  | .full _ searchers => searchers

/-- Python dict assignment on a string-keyed dict embedded as an
association list: replace the value of an existing key in place, else
append the new binding. -/
def dictInsert {β : Type} : List (String × β) → String → β → List (String × β)
  | [], k, v => [(k, v)]
  | (k', v') :: t, k, v =>
    if k' = k then (k, v) :: t else (k', v') :: dictInsert t k v

/-- One iteration of the aggregation loop of Benchmark.run (benchmark.py
lines 167-171): a searcher with a nonempty grade list gets a metrics entry
under its name; a searcher with no grades is skipped. -/
def buildStep (acc : List (String × RetrievalMetrics)) (p : String × List Grade) :
    List (String × RetrievalMetrics) :=
  if p.2.isEmpty then acc else dictInsert acc p.1 (compute_retrieval_metrics p.2)

/-- The aggregation loop of Benchmark.run (benchmark.py lines 167-171) over
the gathered (name, grades) pairs, starting from the empty dict. -/
def buildSearchers (allGrades : List (String × List Grade)) : List (String × RetrievalMetrics) :=
  allGrades.foldl buildStep []

/-- Benchmark.run (benchmark.py lines 129-180), with the loaded query list
as a parameter (load_queries is file I/O).  An empty query list returns the
empty dict at once; otherwise all searcher tasks are gathered (an error in
any of them propagates) and the report is assembled from the per-searcher
grade lists.  Console output, progress rendering and the optional file dump
do not affect the returned value. -/
def Benchmark.run (searchers : List SearcherModel) (cfg : BenchmarkConfig)
    (fetch : List String → Except Unit (String → Option String))
    (judge : Query → Nat → SearchResult → Except String PeopleGradeResult)
    (queries : List Query) : Except Unit RunReport :=
  if queries.isEmpty then .ok .empty
  else
    (gatherExcept (searchers.map
      (fun s => (runSearcher s cfg fetch judge queries).map (fun gs => (s.name, gs))))).map
      (fun allGrades => RunReport.full cfg.limit (buildSearchers allGrades))

/-- The result-collection loop of ParallelSearcher.search (parallel.py
lines 58-82): walk the raw results of the provider response with their
0-based index, stop as soon as the index reaches num_results, and build one
SearchResult per kept raw result.  The per-item construction (url, title,
joined excerpts, metadata with the 0-based rank) is abstracted as f, since
the claims about this loop concern only selection and order. -/
def parallelCollect {α : Type} (f : Nat → α → SearchResult) (numResults : Nat) :
    Nat → List α → List SearchResult
  | _, [] => []
  | i, r :: rest =>
    if numResults ≤ i then [] else f i r :: parallelCollect f numResults (i + 1) rest

/-- ParallelSearcher.search after the HTTP response (parallel.py lines
56-82): the loop started at index 0 over the raw results list. -/
def ParallelSearcher.searchResults {α : Type} (f : Nat → α → SearchResult)
    (numResults : Nat) (raws : List α) : List SearchResult :=
  parallelCollect f numResults 0 raws

/-- Phase of one unit of work guarded by a semaphore: not yet started,
inside the `async with` block, or finished. -/
inductive UnitPhase where
  | pending : UnitPhase
  | active : UnitPhase
  | done : UnitPhase
deriving Repr, DecidableEq, BEq

/-- State of the concurrency structure of one run (benchmark.py lines
94-126): per-query units tagged with their searcher (each searcher task
owns one `asyncio.Semaphore(20)`) and grading units sharing the single
process-wide grading semaphore. -/
structure BenchState where
  qtasks : List (Nat × UnitPhase)
  gtasks : List UnitPhase
deriving Repr, DecidableEq

/-- Number of query units of searcher k currently inside that searcher's
semaphore. -/
def qActive (s : BenchState) (k : Nat) : Nat :=
  s.qtasks.countP (fun t => decide (t.1 = k ∧ t.2 = UnitPhase.active))

/-- Number of grading units currently inside the shared grading
semaphore. -/
def gActive (s : BenchState) : Nat :=
  s.gtasks.countP (fun p => decide (p = UnitPhase.active))

/-- Interleaving semantics of the two semaphore levels: a pending query
unit may enter its searcher's semaphore only while fewer than qcap units of
that searcher are active (`async with semaphore` in _run_searcher), and a
pending grading unit may enter the shared semaphore only while fewer than
gcap grading units are active (`async with self._grade_semaphore` in
_grade).  Finishing releases the permit. -/
inductive BenchStep (qcap gcap : Nat) : BenchState → BenchState → Prop where
  | searchStart (s : BenchState) (i k : Nat)
      (h : s.qtasks[i]? = some (k, UnitPhase.pending)) (hcap : qActive s k < qcap) :
      BenchStep qcap gcap s ⟨s.qtasks.set i (k, UnitPhase.active), s.gtasks⟩
  | searchFinish (s : BenchState) (i k : Nat)
      (h : s.qtasks[i]? = some (k, UnitPhase.active)) :
      BenchStep qcap gcap s ⟨s.qtasks.set i (k, UnitPhase.done), s.gtasks⟩
  | gradeStart (s : BenchState) (i : Nat)
      (h : s.gtasks[i]? = some UnitPhase.pending) (hcap : gActive s < gcap) :
      BenchStep qcap gcap s ⟨s.qtasks, s.gtasks.set i UnitPhase.active⟩
  | gradeFinish (s : BenchState) (i : Nat)
      (h : s.gtasks[i]? = some UnitPhase.active) :
      BenchStep qcap gcap s ⟨s.qtasks, s.gtasks.set i UnitPhase.done⟩

/-- Initial state of a run: every query unit (tagged with its searcher) and
every grading unit still pending. -/
def BenchInit (qowners : List Nat) (ngrade : Nat) : BenchState :=
  ⟨qowners.map (fun k => (k, UnitPhase.pending)), List.replicate ngrade UnitPhase.pending⟩

/-- States a run can reach from a given state. -/
def BenchReachable (qcap gcap : Nat) (init s : BenchState) : Prop :=
  Relation.ReflTransGen (BenchStep qcap gcap) init s

/-- Characterisation shared by the two aggregators: the value
first_match_rank computes is the lowest rank among the matching grades of
the group, or none when no grade matches. -/
def IsLowestMatchRank (group : List Grade) : Option Nat → Prop
  | none => ∀ g ∈ group, isMatchGrade g = false
  | some r => (∃ g ∈ group, isMatchGrade g = true ∧ g.rank = r) ∧
      ∀ g ∈ group, isMatchGrade g = true → r ≤ g.rank

/-- The closed form used to write the grouping loop of addToGroup as the
value of a single selected element. -/
def groupsOf (grades : List Grade) : List (String × List Grade) :=
  (firstKeys (grades.map (fun g => g.query_id))).map
    (fun q => (q, grades.filter (fun g => decide (g.query_id = q))))

/-! Concrete fixtures used by counterexamples and witnesses. -/

def badSearcher : SearcherModel :=
  ⟨"bad", fun _ _ => .error ()⟩

def goodSearcher : SearcherModel :=
  ⟨"good", fun _ _ => .ok []⟩

def qOne : Query :=
  ⟨"q1", "find the security engineer", "", []⟩

def fetchFail : List String → Except Unit (String → Option String) :=
  fun _ => .error ()

def judgeFail : Query → Nat → SearchResult → Except String PeopleGradeResult :=
  fun _ _ _ => .error ("llm call failed")

def judgeW : Nat → SearchResult → Except String PeopleGradeResult :=
  fun _ _ => .error ("llm call failed")

def resultA : SearchResult :=
  ⟨"urlA", "titleA", "textA", []⟩

def nameA : String := "alpha"

def nameB : String := "beta"

def gradeA : Grade := ⟨"q1", 1, 1⟩

/-! Lemmas about firstKeys, the per-group sort and first_match_rank. -/

theorem mem_firstKeys {a : String} : ∀ {l : List String}, a ∈ firstKeys l ↔ a ∈ l := by
  intro l
  induction l using firstKeys.induct with
  | case1 => simp [firstKeys]
  | case2 q t ih =>
    simp only [firstKeys, List.mem_cons, ih, List.mem_filter, decide_eq_true_eq]
    by_cases hq : a = q
    · simp [hq]
    · simp [hq]

theorem nodup_firstKeys : ∀ (l : List String), (firstKeys l).Nodup := by
  intro l
  induction l using firstKeys.induct with
  | case1 => simp [firstKeys]
  | case2 q t ih =>
    simp only [firstKeys, List.nodup_cons]
    refine ⟨fun hmem => ?_, ih⟩
    rw [mem_firstKeys] at hmem
    simp at hmem

theorem perm_insertByRank (g : Grade) (l : List Grade) :
    (insertByRank g l).Perm (g :: l) := by
  induction l with
  | nil => simp [insertByRank]
  | cons h t ih =>
    simp only [insertByRank]
    by_cases hle : g.rank ≤ h.rank
    · simp [hle]
    · simp only [if_neg hle]
      exact (ih.cons h).trans (List.Perm.swap g h t)

theorem perm_sortByRank (l : List Grade) : (sortByRank l).Perm l := by
  induction l with
  | nil => simp [sortByRank]
  | cons g t ih =>
    simpa [sortByRank] using (perm_insertByRank g (sortByRank t)).trans (ih.cons g)

theorem mem_sortByRank {g : Grade} {l : List Grade} : g ∈ sortByRank l ↔ g ∈ l :=
  (perm_sortByRank l).mem_iff

theorem pairwise_insertByRank {g : Grade} {l : List Grade}
    (hl : l.Pairwise (fun a b => a.rank ≤ b.rank)) :
    (insertByRank g l).Pairwise (fun a b => a.rank ≤ b.rank) := by
  induction l with
  | nil => simp [insertByRank]
  | cons h t ih =>
    rw [List.pairwise_cons] at hl
    simp only [insertByRank]
    by_cases hle : g.rank ≤ h.rank
    · rw [if_pos hle, List.pairwise_cons]
      refine ⟨?_, List.pairwise_cons.mpr hl⟩
      intro b hb
      rcases List.mem_cons.mp hb with hb | hb
      · exact hb ▸ hle
      · exact le_trans hle (hl.1 b hb)
    · rw [if_neg hle, List.pairwise_cons]
      refine ⟨?_, ih hl.2⟩
      intro b hb
      rcases List.mem_cons.mp ((perm_insertByRank g t).mem_iff.mp hb) with hb | hb
      · exact hb ▸ Nat.le_of_not_le hle
      · exact hl.1 b hb

theorem pairwise_sortByRank (l : List Grade) :
    (sortByRank l).Pairwise (fun a b => a.rank ≤ b.rank) := by
  induction l with
  | nil => simp [sortByRank]
  | cons g t ih => exact pairwise_insertByRank ih

theorem find?_min_of_sorted {p : Grade → Bool} :
    ∀ {l : List Grade}, l.Pairwise (fun a b => a.rank ≤ b.rank) → ∀ {a : Grade},
      l.find? p = some a → p a = true ∧ ∀ b ∈ l, p b = true → a.rank ≤ b.rank := by
  intro l
  induction l with
  | nil => intro _ a h; simp at h
  | cons h t ih =>
    intro hpw a hfind
    rw [List.pairwise_cons] at hpw
    by_cases hp : p h = true
    · rw [List.find?_cons_of_pos _ hp] at hfind
      cases hfind
      refine ⟨hp, ?_⟩
      intro b hb _
      rcases List.mem_cons.mp hb with hb | hb
      · exact hb ▸ le_rfl
      · exact hpw.1 b hb
    · rw [List.find?_cons_of_neg _ (by simpa using hp)] at hfind
      obtain ⟨hpa, hmin⟩ := ih hpw.2 hfind
      refine ⟨hpa, ?_⟩
      intro b hb hpb
      rcases List.mem_cons.mp hb with hb | hb
      · exact absurd (hb ▸ hpb) hp
      · exact hmin b hb hpb

theorem isLowestMatchRank_unique {group : List Grade} {o₁ o₂ : Option Nat}
    (h₁ : IsLowestMatchRank group o₁) (h₂ : IsLowestMatchRank group o₂) : o₁ = o₂ := by
  cases o₁ with
  | none =>
    cases o₂ with
    | none => rfl
    | some r =>
      obtain ⟨⟨g, hg, hm, _⟩, _⟩ := h₂
      exact absurd hm (by simp [h₁ g hg])
  | some r =>
    cases o₂ with
    | none =>
      obtain ⟨⟨g, hg, hm, _⟩, _⟩ := h₁
      exact absurd hm (by simp [h₂ g hg])
    | some r' =>
      obtain ⟨⟨g, hg, hm, hr⟩, hmin⟩ := h₁
      obtain ⟨⟨g', hg', hm', hr'⟩, hmin'⟩ := h₂
      have h1 : r ≤ r' := hr' ▸ hmin g' hg' hm'
      have h2 : r' ≤ r := hr ▸ hmin' g hg hm
      exact congrArg some (Nat.le_antisymm h1 h2)

theorem isLowestMatchRank_of_perm {group group' : List Grade} {o : Option Nat}
    (hperm : group.Perm group') (h : IsLowestMatchRank group o) :
    IsLowestMatchRank group' o := by
  cases o with
  | none => exact fun g hg => h g (hperm.mem_iff.mpr hg)
  | some r =>
    obtain ⟨⟨g, hg, hm, hr⟩, hmin⟩ := h
    exact ⟨⟨g, hperm.mem_iff.mp hg, hm, hr⟩,
      fun g' hg' hm' => hmin g' (hperm.mem_iff.mpr hg') hm'⟩

theorem firstMatchRank_char (group : List Grade) :
    IsLowestMatchRank group (firstMatchRank (sortByRank group)) := by
  unfold firstMatchRank
  cases hf : (sortByRank group).find? isMatchGrade with
  | none =>
    simp only [Option.map_none']
    intro g hg
    have := List.find?_eq_none.mp hf g (mem_sortByRank.mpr hg)
    simpa using this
  | some a =>
    simp only [Option.map_some']
    obtain ⟨hpa, hmin⟩ := find?_min_of_sorted (pairwise_sortByRank group) hf
    refine ⟨⟨a, mem_sortByRank.mp (List.mem_of_find?_eq_some hf), hpa, rfl⟩, ?_⟩
    intro g hg hm
    exact hmin g (mem_sortByRank.mpr hg) hm

theorem minOfList_eq_none {l : List Nat} : minOfList l = none ↔ l = [] := by
  induction l with
  | nil => simp [minOfList]
  | cons r t ih =>
    simp only [minOfList, List.foldr_cons]
    cases h : minOfList t <;> simp_all [minOfList]

theorem minOfList_eq_some {l : List Nat} {m : Nat} (h : minOfList l = some m) :
    m ∈ l ∧ ∀ x ∈ l, m ≤ x := by
  induction l generalizing m with
  | nil => simp [minOfList] at h
  | cons r t ih =>
    have hfold : minOfList (r :: t) =
        match minOfList t with
        | none => some r
        | some m' => some (min r m') := rfl
    rw [hfold] at h
    cases ht : minOfList t with
    | none =>
      rw [ht] at h
      cases h
      have : t = [] := minOfList_eq_none.mp ht
      subst this
      exact ⟨List.mem_singleton.mpr rfl, by simp⟩
    | some m' =>
      rw [ht] at h
      cases h
      obtain ⟨hmem, hmin⟩ := ih ht
      constructor
      · rcases Nat.le_total r m' with hle | hle
        · simp [Nat.min_eq_left hle]
        · right
          rw [Nat.min_eq_right hle]
          exact hmem
      · intro x hx
        rcases List.mem_cons.mp hx with hx | hx
        · exact hx ▸ Nat.min_le_left r m'
        · exact le_trans (Nat.min_le_right r m') (hmin x hx)

theorem specFirstMatchRank_char (group : List Grade)
    (h1 : ∀ g ∈ group, g.is_match = 0 ∨ g.is_match = 1) :
    IsLowestMatchRank group (specFirstMatchRank group) := by
  have hmatch : ∀ g ∈ group, (isMatchGrade g = true ↔ g.is_match = 1) := by
    intro g hg
    rcases h1 g hg with h | h <;> simp [isMatchGrade, h]
  cases h : specFirstMatchRank group with
  | none =>
    intro g hg
    have hnil := minOfList_eq_none.mp h
    have hfil : group.filter (fun g => decide (g.is_match = 1)) = [] :=
      List.map_eq_nil_iff.mp hnil
    have : ¬ (decide (g.is_match = 1) = true) :=
      List.filter_eq_nil_iff.mp hfil g hg
    rw [Bool.not_eq_true] at this
    cases hb : isMatchGrade g
    · rfl
    · exact absurd (by simpa using (hmatch g hg).mp hb) (by simpa using this)
  | some r =>
    obtain ⟨hmem, hmin⟩ := minOfList_eq_some h
    obtain ⟨g, hgf, hgr⟩ := List.mem_map.mp hmem
    obtain ⟨hgmem, hgm⟩ := List.mem_filter.mp hgf
    refine ⟨⟨g, hgmem, (hmatch g hgmem).mpr (by simpa using hgm), hgr⟩, ?_⟩
    intro g' hg' hm'
    have : g'.rank ∈ (group.filter (fun g => decide (g.is_match = 1))).map
        (fun g => g.rank) := by
      refine List.mem_map.mpr ⟨g', List.mem_filter.mpr ⟨hg', ?_⟩, rfl⟩
      simpa using (hmatch g' hg').mp hm'
    exact hmin _ this

theorem firstMatchRank_eq_spec (group : List Grade)
    (h1 : ∀ g ∈ group, g.is_match = 0 ∨ g.is_match = 1) :
    firstMatchRank (sortByRank group) = specFirstMatchRank group :=
  isLowestMatchRank_unique (firstMatchRank_char group) (specFirstMatchRank_char group h1)

theorem firstMatchRank_perm {group group' : List Grade} (hperm : group.Perm group') :
    firstMatchRank (sortByRank group) = firstMatchRank (sortByRank group') :=
  isLowestMatchRank_unique (firstMatchRank_char group)
    (isLowestMatchRank_of_perm hperm.symm (firstMatchRank_char group'))

theorem queryContribution_perm {group group' : List Grade} (hperm : group.Perm group') :
    queryContribution group = queryContribution group' := by
  have hfmr := firstMatchRank_perm hperm
  have hsort : (sortByRank group).Perm (sortByRank group') :=
    ((perm_sortByRank group).trans hperm).trans (perm_sortByRank group').symm
  have hlen : (sortByRank group).length = (sortByRank group').length := hsort.length_eq
  have hcnt : (sortByRank group).countP isMatchGrade =
      (sortByRank group').countP isMatchGrade := hsort.countP_eq _
  simp only [queryContribution, hfmr, hlen, hcnt]

theorem queryContribution_eq_spec (group : List Grade)
    (h1 : ∀ g ∈ group, g.is_match = 0 ∨ g.is_match = 1)
    (h2 : ∀ g ∈ group, 1 ≤ g.rank) :
    queryContribution group = specQueryContribution group := by
  have hfmr := firstMatchRank_eq_spec group h1
  have hlen : (sortByRank group).length = group.length := (perm_sortByRank group).length_eq
  have hcnt : (sortByRank group).countP isMatchGrade =
      group.countP (fun g => decide (g.is_match = 1)) := by
    rw [(perm_sortByRank group).countP_eq]
    refine List.countP_congr ?_
    intro g hg
    rcases h1 g hg with h | h <;> simp [isMatchGrade, h]
  have hrecall :
      (match specFirstMatchRank group with
        | some r => if r ≠ 0 ∧ r ≤ 10 then (1 : ℚ) else 0
        | none => (0 : ℚ)) =
      (match specFirstMatchRank group with
        | some r => if r ≤ 10 then (1 : ℚ) else 0
        | none => (0 : ℚ)) := by
    cases h : specFirstMatchRank group with
    | none => rfl
    | some r =>
      have hchar := specFirstMatchRank_char group h1
      rw [h] at hchar
      obtain ⟨⟨g, hg, _, hgr⟩, _⟩ := hchar
      have hr : r ≠ 0 := by
        have := h2 g hg
        omega
      simp [hr]
  have hprec :
      (if 0 < (sortByRank group).length
        then ((sortByRank group).countP isMatchGrade : ℚ) / ((sortByRank group).length : ℚ)
        else 0) =
      (if group.length = 0 then (0 : ℚ)
        else (group.countP (fun g => decide (g.is_match = 1)) : ℚ) / (group.length : ℚ)) := by
    rw [hlen, hcnt]
    rcases Nat.eq_zero_or_pos group.length with hz | hz
    · simp [hz]
    · rw [if_pos hz, if_neg (Nat.pos_iff_ne_zero.mp hz)]
  simp only [queryContribution, specQueryContribution, hfmr, hrecall, hprec]

/-! Closed form of the grouping loop: groups are the per-key filters, keys
in first-occurrence order. -/

theorem firstKeys_cons (q : String) (t : List String) :
    firstKeys (q :: t) = q :: firstKeys (t.filter (fun x => x ≠ q)) := by
  simp [firstKeys]

theorem firstKeys_append_singleton (xs : List String) (a : String) :
    firstKeys (xs ++ [a]) =
      if a ∈ xs then firstKeys xs else firstKeys xs ++ [a] := by
  induction xs using firstKeys.induct with
  | case1 => simp [firstKeys]
  | case2 q t ih =>
    rw [List.cons_append, firstKeys_cons q (t ++ [a]), firstKeys_cons q t,
      List.filter_append]
    by_cases haq : a = q
    · have hfa : [a].filter (fun x => decide (x ≠ q)) = [] := by simp [haq]
      rw [hfa, List.append_nil, if_pos (by simp [haq])]
    · have hfa : [a].filter (fun x => decide (x ≠ q)) = [a] := by simp [haq]
      rw [hfa, ih]
      have hmemfil : a ∈ t.filter (fun x => decide (x ≠ q)) ↔ a ∈ t := by
        simp [haq]
      by_cases hat : a ∈ t
      · rw [if_pos (hmemfil.mpr hat), if_pos (by simp [hat])]
      · rw [if_neg (fun hc => hat (hmemfil.mp hc)), if_neg (by simp [haq, hat]),
          List.cons_append]

theorem addToGroup_map (K : List String) (f : String → List Grade) (g : Grade)
    (hK : K.Nodup) :
    addToGroup (K.map (fun q => (q, f q))) g =
      if g.query_id ∈ K
      then K.map (fun q => (q, if q = g.query_id then f q ++ [g] else f q))
      else K.map (fun q => (q, f q)) ++ [(g.query_id, [g])] := by
  induction K with
  | nil => simp [addToGroup]
  | cons q0 K' ih =>
    rw [List.nodup_cons] at hK
    rw [List.map_cons]
    rw [show addToGroup ((q0, f q0) :: K'.map (fun q => (q, f q))) g =
      (if q0 = g.query_id
        then (q0, f q0 ++ [g]) :: K'.map (fun q => (q, f q))
        else (q0, f q0) :: addToGroup (K'.map (fun q => (q, f q))) g) from rfl]
    by_cases h0 : q0 = g.query_id
    · rw [if_pos h0, if_pos (by simp [h0])]
      rw [List.map_cons, if_pos h0]
      congr 1
      refine List.map_congr_left ?_
      intro q hq
      have : q ≠ g.query_id := by
        intro hc
        have hqq0 : q = q0 := hc.trans h0.symm
        exact hK.1 (hqq0 ▸ hq)
      rw [if_neg this]
    · rw [if_neg h0, ih hK.2]
      by_cases hmem : g.query_id ∈ K'
      · rw [if_pos hmem, if_pos (by simp [hmem]), List.map_cons, if_neg h0]
      · have hcons : ¬ g.query_id ∈ q0 :: K' := by
          intro hc
          rcases List.mem_cons.mp hc with hc | hc
          · exact h0 hc.symm
          · exact hmem hc
        rw [if_neg hmem, if_neg hcons, List.cons_append]

theorem addToGroup_groupsOf (P : List Grade) (g : Grade) :
    addToGroup (groupsOf P) g = groupsOf (P ++ [g]) := by
  unfold groupsOf
  rw [addToGroup_map _ _ _ (nodup_firstKeys _)]
  have hkeys : (P ++ [g]).map (fun g => g.query_id) =
      P.map (fun g => g.query_id) ++ [g.query_id] := by simp
  rw [hkeys, firstKeys_append_singleton]
  have hfilter : ∀ q, (P ++ [g]).filter (fun x => decide (x.query_id = q)) =
      P.filter (fun x => decide (x.query_id = q)) ++
        (if g.query_id = q then [g] else []) := by
    intro q
    rw [List.filter_append]
    congr 1
    by_cases hq : g.query_id = q <;> simp [hq]
  by_cases hmem : g.query_id ∈ P.map (fun g => g.query_id)
  · rw [if_pos (mem_firstKeys.mpr hmem), if_pos hmem]
    refine List.map_congr_left ?_
    intro q hq
    rw [hfilter q]
    by_cases hq' : q = g.query_id
    · rw [if_pos hq', if_pos hq'.symm, hq']
    · rw [if_neg hq', if_neg (fun hc => hq' hc.symm), List.append_nil]
  · rw [if_neg (fun hc => hmem (mem_firstKeys.mp hc)), if_neg hmem, List.map_append]
    congr 1
    · refine List.map_congr_left ?_
      intro q hq
      rw [hfilter q]
      have : ¬ g.query_id = q := by
        intro hc
        exact hmem (hc ▸ mem_firstKeys.mp hq)
      rw [if_neg this, List.append_nil]
    · rw [List.map_singleton, hfilter g.query_id, if_pos rfl]
      have : P.filter (fun x => decide (x.query_id = g.query_id)) = [] := by
        refine List.filter_eq_nil_iff.mpr ?_
        intro x hx
        simp only [decide_eq_true_eq]
        intro hc
        exact hmem (hc ▸ List.mem_map_of_mem _ hx)
      rw [this, List.nil_append]

theorem groupByQuery_closed (grades : List Grade) :
    groupByQuery grades = groupsOf grades := by
  suffices h : ∀ (l P : List Grade), l.foldl addToGroup (groupsOf P) = groupsOf (P ++ l) by
    have := h grades []
    simpa [groupByQuery, groupsOf, firstKeys] using this
  intro l
  induction l with
  | nil => intro P; simp
  | cons g l' ih =>
    intro P
    rw [List.foldl_cons, addToGroup_groupsOf, ih]
    simp

theorem compute_eq_canonical (grades : List Grade) :
    compute_retrieval_metrics grades =
      metricsFromContributions ((specGroups grades).map queryContribution) := by
  unfold compute_retrieval_metrics
  rw [groupByQuery_closed]
  unfold groupsOf specGroups
  simp only [List.map_map]
  rfl

theorem metricsFromContributions_perm {cs cs' : List (ℚ × ℚ × ℚ)}
    (h : cs.Perm cs') : metricsFromContributions cs = metricsFromContributions cs' := by
  have hlen := h.length_eq
  have h1 : (cs.map (fun c => c.1)).sum = (cs'.map (fun c => c.1)).sum :=
    (h.map _).sum_eq
  have h2 : (cs.map (fun c => c.2.1)).sum = (cs'.map (fun c => c.2.1)).sum :=
    (h.map _).sum_eq
  have h3 : (cs.map (fun c => c.2.2)).sum = (cs'.map (fun c => c.2.2)).sum :=
    (h.map _).sum_eq
  simp only [metricsFromContributions, hlen, h1, h2, h3]

theorem compute_retrieval_metrics_perm {l l' : List Grade} (hperm : l.Perm l') :
    compute_retrieval_metrics l = compute_retrieval_metrics l' := by
  rw [compute_eq_canonical l, compute_eq_canonical l']
  unfold specGroups
  rw [List.map_map, List.map_map]
  have hK : (firstKeys (l.map (fun g => g.query_id))).Perm
      (firstKeys (l'.map (fun g => g.query_id))) := by
    rw [List.perm_ext_iff_of_nodup (nodup_firstKeys _) (nodup_firstKeys _)]
    intro a
    rw [mem_firstKeys, mem_firstKeys, (hperm.map _).mem_iff]
  have hfun : (queryContribution ∘ fun q => l.filter (fun g => decide (g.query_id = q))) =
      (queryContribution ∘ fun q => l'.filter (fun g => decide (g.query_id = q))) := by
    funext q
    exact queryContribution_perm (hperm.filter _)
  rw [hfun]
  exact metricsFromContributions_perm (hK.map _)

theorem compute_eq_spec (grades : List Grade)
    (h1 : ∀ g ∈ grades, g.is_match = 0 ∨ g.is_match = 1)
    (h2 : ∀ g ∈ grades, 1 ≤ g.rank) :
    compute_retrieval_metrics grades = spec_retrieval_metrics grades := by
  rw [compute_eq_canonical]
  unfold spec_retrieval_metrics
  congr 1
  refine List.map_congr_left ?_
  intro group hgroup
  obtain ⟨q, _, hq⟩ := List.mem_map.mp hgroup
  refine queryContribution_eq_spec group ?_ ?_
  · intro g hg
    refine h1 g ?_
    rw [← hq] at hg
    exact (List.mem_filter.mp hg).1
  · intro g hg
    refine h2 g ?_
    rw [← hq] at hg
    exact (List.mem_filter.mp hg).1

/-! Helpers for the orchestrator theorems. -/

theorem gatherExcept_eq_error {α : Type} :
    ∀ {l : List (Except Unit α)}, Except.error () ∈ l → gatherExcept l = .error () := by
  intro l
  induction l with
  | nil => intro h; simp at h
  | cons x rest ih =>
    intro h
    cases x with
    | error e => rfl
    | ok a =>
      rcases List.mem_cons.mp h with h | h
      · exact absurd h (by simp)
      · show (gatherExcept rest).map (fun l => a :: l) = .error ()
        rw [ih h]
        rfl

theorem processQuery_error {s : SearcherModel} {cfg : BenchmarkConfig}
    {fetch : List String → Except Unit (String → Option String)}
    {judge : Query → Nat → SearchResult → Except String PeopleGradeResult}
    {q : Query} (h : s.search q.text cfg.num_results = Except.error ()) :
    processQuery s cfg fetch judge q = .error () := by
  unfold processQuery
  rw [h]

theorem runSearcher_error {s : SearcherModel} {cfg : BenchmarkConfig}
    {fetch : List String → Except Unit (String → Option String)}
    {judge : Query → Nat → SearchResult → Except String PeopleGradeResult}
    {queries : List Query} {q : Query} (hq : q ∈ queries)
    (h : s.search q.text cfg.num_results = Except.error ()) :
    runSearcher s cfg fetch judge queries = .error () := by
  unfold runSearcher
  have hmem : Except.error () ∈ queries.map (processQuery s cfg fetch judge) := by
    have hmem' := List.mem_map_of_mem (processQuery s cfg fetch judge) hq
    rwa [processQuery_error h] at hmem'
  rw [gatherExcept_eq_error hmem]
  rfl

theorem lookup_dictInsert_self {β : Type} (d : List (String × β)) (k : String) (v : β) :
    (dictInsert d k v).lookup k = some v := by
  induction d with
  | nil => simp [dictInsert, List.lookup]
  | cons p t ih =>
    obtain ⟨k', v'⟩ := p
    by_cases h : k' = k
    · simp [dictInsert, h, List.lookup]
    · simp only [dictInsert, if_neg h, List.lookup]
      rw [show (k == k') = false from beq_eq_false_iff_ne.mpr (fun hc => h hc.symm)]
      exact ih

theorem lookup_dictInsert_ne {β : Type} (d : List (String × β)) (k k' : String) (v : β)
    (h : k' ≠ k) : (dictInsert d k v).lookup k' = d.lookup k' := by
  induction d with
  | nil => simp [dictInsert, List.lookup, beq_eq_false_iff_ne.mpr h]
  | cons p t ih =>
    obtain ⟨k0, v0⟩ := p
    by_cases h0 : k0 = k
    · simp only [dictInsert, if_pos h0, List.lookup]
      rw [show (k' == k) = false from beq_eq_false_iff_ne.mpr h,
        show (k' == k0) = false from beq_eq_false_iff_ne.mpr (h0 ▸ h)]
    · simp only [dictInsert, if_neg h0, List.lookup]
      cases hk0 : k' == k0
      · exact ih
      · rfl

theorem mem_keys_dictInsert {β : Type} {d : List (String × β)} {k a : String} {v : β} :
    a ∈ (dictInsert d k v).map Prod.fst ↔ a = k ∨ a ∈ d.map Prod.fst := by
  induction d with
  | nil => simp [dictInsert]
  | cons p t ih =>
    obtain ⟨k0, v0⟩ := p
    by_cases h0 : k0 = k
    · subst h0
      simp [dictInsert]
    · simp only [dictInsert, if_neg h0, List.map_cons, List.mem_cons, ih]
      tauto

theorem foldl_buildStep_preserve (l : List (String × List Grade))
    (d : List (String × RetrievalMetrics)) (name : String)
    (hname : name ∉ l.map Prod.fst) :
    (l.foldl buildStep d).lookup name = d.lookup name ∧
      (name ∈ (l.foldl buildStep d).map Prod.fst ↔ name ∈ d.map Prod.fst) := by
  induction l generalizing d with
  | nil => exact ⟨rfl, Iff.rfl⟩
  | cons p t ih =>
    obtain ⟨n, gs⟩ := p
    simp only [List.map_cons, List.mem_cons] at hname
    push_neg at hname
    rw [List.foldl_cons]
    have hstep : (buildStep d (n, gs)).lookup name = d.lookup name ∧
        (name ∈ (buildStep d (n, gs)).map Prod.fst ↔ name ∈ d.map Prod.fst) := by
      unfold buildStep
      by_cases hgs : gs.isEmpty
      · rw [if_pos hgs]
        exact ⟨rfl, Iff.rfl⟩
      · rw [if_neg hgs]
        refine ⟨lookup_dictInsert_ne _ _ _ _ hname.1, ?_⟩
        rw [mem_keys_dictInsert]
        simp [hname.1]
    obtain ⟨ihl, ihm⟩ := ih (buildStep d (n, gs)) hname.2
    exact ⟨ihl.trans hstep.1, ihm.trans hstep.2⟩

theorem foldl_buildStep_lookup :
    ∀ (l : List (String × List Grade)) (d : List (String × RetrievalMetrics))
      (name : String) (gs : List Grade),
      (l.map Prod.fst).Nodup → (name, gs) ∈ l → name ∉ d.map Prod.fst →
      ((gs ≠ [] → (l.foldl buildStep d).lookup name = some (compute_retrieval_metrics gs)) ∧
        (gs = [] → name ∉ (l.foldl buildStep d).map Prod.fst)) := by
  intro l
  induction l with
  | nil => intro d name gs _ hmem; simp at hmem
  | cons p t ih =>
    intro d name gs hnd hmem hd
    obtain ⟨n0, gs0⟩ := p
    rw [List.map_cons, List.nodup_cons] at hnd
    rw [List.foldl_cons]
    rcases List.mem_cons.mp hmem with heq | hmem'
    · injection heq with h1 h2
      subst h1
      subst h2
      have hnt : name ∉ t.map Prod.fst := hnd.1
      constructor
      · intro hgs
        have hne : gs.isEmpty = false := by
          cases gs
          · exact absurd rfl hgs
          · rfl
        have hlk : (buildStep d (name, gs)).lookup name =
            some (compute_retrieval_metrics gs) := by
          unfold buildStep
          rw [if_neg (by simp [hne])]
          exact lookup_dictInsert_self _ _ _
        rw [(foldl_buildStep_preserve t _ name hnt).1, hlk]
      · intro hgs
        subst hgs
        have hstep : buildStep d (name, []) = d := rfl
        rw [hstep]
        intro hc
        exact hd ((foldl_buildStep_preserve t d name hnt).2.mp hc)
    · have hnamet : name ∈ t.map Prod.fst := by
        have := List.mem_map_of_mem Prod.fst hmem'
        simpa using this
      have hne : name ≠ n0 := fun hc => hnd.1 (hc ▸ hnamet)
      have hd' : name ∉ (buildStep d (n0, gs0)).map Prod.fst := by
        unfold buildStep
        by_cases hgs0 : gs0.isEmpty
        · rw [if_pos hgs0]; exact hd
        · rw [if_neg hgs0]
          rw [mem_keys_dictInsert]
          push_neg
          exact ⟨hne, hd⟩
      exact ih (buildStep d (n0, gs0)) name gs hnd.2 hmem' hd'

theorem gradeResults_ranks (judge : Nat → SearchResult → Except String PeopleGradeResult)
    (q : Query) :
    ∀ (s : Nat) (l : List SearchResult),
      (gradeResults judge q s l).map (fun g => g.rank) = List.range' s l.length := by
  intro s l
  induction l generalizing s with
  | nil => rfl
  | cons r rest ih =>
    show (gradeOne judge q s r).rank :: (gradeResults judge q (s + 1) rest).map (fun g => g.rank) =
      List.range' s (rest.length + 1)
    rw [ih (s + 1), List.range'_succ]
    rfl

theorem gradeResults_query_id (judge : Nat → SearchResult → Except String PeopleGradeResult)
    (q : Query) :
    ∀ (s : Nat) (l : List SearchResult) (g : Grade),
      g ∈ gradeResults judge q s l → g.query_id = q.query_id := by
  intro s l
  induction l generalizing s with
  | nil => intro g h; simp [gradeResults] at h
  | cons r rest ih =>
    intro g h
    rcases List.mem_cons.mp h with h | h
    · rw [h]
      rfl
    · exact ih (s + 1) g h

theorem parallelCollect_eq {α : Type} (f : Nat → α → SearchResult) (n : Nat) :
    ∀ (i : Nat) (raws : List α),
      parallelCollect f n i raws =
        (raws.take (n - i)).mapIdx (fun j a => f (i + j) a) := by
  intro i raws
  induction raws generalizing i with
  | nil => simp [parallelCollect]
  | cons r rest ih =>
    by_cases hni : n ≤ i
    · have hz : n - i = 0 := Nat.sub_eq_zero_of_le hni
      simp [parallelCollect, hni, hz]
    · have hsub : n - i = (n - (i + 1)) + 1 := by omega
      have hstep : parallelCollect f n i (r :: rest) =
          f i r :: parallelCollect f n (i + 1) rest := by
        rw [parallelCollect]
        rw [if_neg hni]
      rw [hstep, ih (i + 1), hsub, List.take_succ_cons, List.mapIdx_cons]
      have hfun : (fun j a => f (i + 1 + j) a) = (fun (j : Nat) a => f (i + (j + 1)) a) := by
        funext j a
        congr 1
        omega
      rw [hfun]
      simp

/-! Invariant of the semaphore transition system. -/

theorem countP_set_of_getElem {α : Type} (p : α → Bool) (l : List α) (i : Nat) (a b : α)
    (h : l[i]? = some a) :
    (l.set i b).countP p + (if p a then 1 else 0) =
      l.countP p + (if p b then 1 else 0) := by
  induction l generalizing i with
  | nil => simp at h
  | cons x t ih =>
    cases i with
    | zero =>
      simp only [List.getElem?_cons_zero, Option.some_inj] at h
      subst h
      simp only [List.set_cons_zero, List.countP_cons]
      omega
    | succ i' =>
      simp only [List.getElem?_cons_succ] at h
      simp only [List.set_cons_succ, List.countP_cons]
      have := ih i' h
      omega

theorem benchStep_invariant {qcap gcap : Nat} {s s' : BenchState}
    (hstep : BenchStep qcap gcap s s')
    (hq : ∀ k, qActive s k ≤ qcap) (hg : gActive s ≤ gcap) :
    (∀ k, qActive s' k ≤ qcap) ∧ gActive s' ≤ gcap := by
  cases hstep with
  | searchStart i k h hcap =>
    refine ⟨?_, hg⟩
    intro k'
    have hcnt := countP_set_of_getElem
      (fun t => decide (t.1 = k' ∧ t.2 = UnitPhase.active)) s.qtasks i
      (k, UnitPhase.pending) (k, UnitPhase.active) h
    simp only [decide_eq_true_eq, and_true, if_true] at hcnt
    simp only [qActive] at hq hcap ⊢
    by_cases hk : k = k'
    · subst hk
      rw [if_pos rfl] at hcnt
      have := hcap
      omega
    · rw [if_neg hk] at hcnt
      have := hq k'
      omega
  | searchFinish i k h =>
    refine ⟨?_, hg⟩
    intro k'
    have hcnt := countP_set_of_getElem
      (fun t => decide (t.1 = k' ∧ t.2 = UnitPhase.active)) s.qtasks i
      (k, UnitPhase.active) (k, UnitPhase.done) h
    simp only [decide_eq_true_eq, and_true, if_true] at hcnt
    rw [show (if k = k' ∧ UnitPhase.done = UnitPhase.active then (1 : Nat) else 0) = 0
      from if_neg (fun hc => UnitPhase.noConfusion hc.2)] at hcnt
    simp only [qActive] at hq ⊢
    have := hq k'
    by_cases hk : k = k'
    · subst hk
      rw [if_pos rfl] at hcnt
      omega
    · rw [if_neg hk] at hcnt
      omega
  | gradeStart i h hcap =>
    refine ⟨hq, ?_⟩
    have hcnt := countP_set_of_getElem
      (fun p => decide (p = UnitPhase.active)) s.gtasks i
      UnitPhase.pending UnitPhase.active h
    simp only [decide_eq_true_eq, if_true] at hcnt
    simp only [gActive] at hcap ⊢
    omega
  | gradeFinish i h =>
    refine ⟨hq, ?_⟩
    have hcnt := countP_set_of_getElem
      (fun p => decide (p = UnitPhase.active)) s.gtasks i
      UnitPhase.active UnitPhase.done h
    simp only [decide_eq_true_eq, if_true] at hcnt
    rw [if_neg (fun hc => UnitPhase.noConfusion hc)] at hcnt
    simp only [gActive] at hg ⊢
    omega

theorem benchReachable_invariant {qcap gcap : Nat} {qowners : List Nat} {ngrade : Nat}
    {s : BenchState} (h : BenchReachable qcap gcap (BenchInit qowners ngrade) s) :
    (∀ k, qActive s k ≤ qcap) ∧ gActive s ≤ gcap := by
  induction h with
  | refl =>
    constructor
    · intro k
      have hz : qActive (BenchInit qowners ngrade) k = 0 := by
        refine List.countP_eq_zero.mpr ?_
        intro t ht
        obtain ⟨k', _, hk'⟩ := List.mem_map.mp ht
        rw [← hk']
        simp
      omega
    · have hz : gActive (BenchInit qowners ngrade) = 0 := by
        refine List.countP_eq_zero.mpr ?_
        intro t ht
        have hrep := List.eq_of_mem_replicate ht
        rw [hrep]
        simp
      omega
  | tail _ hstep ih => exact benchStep_invariant hstep ih.1 ih.2

/-! Theorems settling the claims. -/

/-- Claim C1, counterexample: with a single query and a searcher whose
search call faults, the claimed behaviour (the fault is caught locally, the
searcher ends with zero grades, the run completes) is false on the code:
_run_searcher propagates the exception and the whole run returns an error,
even when another healthy searcher is present. -/
theorem C1_counterexample :
    runSearcher badSearcher {} fetchFail judgeFail [qOne] = .error () ∧
      Benchmark.run [badSearcher, goodSearcher] {} fetchFail judgeFail [qOne] =
        .error () :=
  ⟨rfl, rfl⟩

/-- Claim C1 (corrected): a per-query search fault is NOT caught locally.
There is no try/except around `searcher.search` in Benchmark._run_searcher,
and the gathers in _run_searcher and run use the default
return_exceptions=False, so a search fault on any query of any searcher
propagates and aborts the whole run with that exception instead of
contributing zero grades. -/
theorem C1_search_fault_aborts_run :
    ∀ (searchers : List SearcherModel) (cfg : BenchmarkConfig)
      (fetch : List String → Except Unit (String → Option String))
      (judge : Query → Nat → SearchResult → Except String PeopleGradeResult)
      (queries : List Query) (s : SearcherModel) (q : Query),
      s ∈ searchers → q ∈ queries →
      s.search q.text cfg.num_results = Except.error () →
      Benchmark.run searchers cfg fetch judge queries = .error () := by
  intro searchers cfg fetch judge queries s q hs hq hsearch
  unfold Benchmark.run
  have hnonempty : queries.isEmpty = false := by
    cases queries
    · simp at hq
    · rfl
  rw [hnonempty]
  rw [if_neg (by simp)]
  have hmem : Except.error () ∈ searchers.map
      (fun s' => (runSearcher s' cfg fetch judge queries).map (fun gs => (s'.name, gs))) := by
    refine List.mem_map.mpr ⟨s, hs, ?_⟩
    show (runSearcher s cfg fetch judge queries).map (fun gs => (s.name, gs)) =
      Except.error ()
    rw [runSearcher_error hq hsearch]
    rfl
  rw [gatherExcept_eq_error hmem]
  rfl

/-- Witness for the corrected claim C1 at a concrete faulting searcher. -/
theorem C1_witness :
    Benchmark.run [badSearcher] {} fetchFail judgeFail [qOne] = .error () :=
  C1_search_fault_aborts_run [badSearcher] {} fetchFail judgeFail [qOne]
    badSearcher qOne (List.mem_singleton.mpr rfl) (List.mem_singleton.mpr rfl) rfl

/-- Claim C2 (confirmed): compute_retrieval_metrics coincides with the
reference aggregator of spec section 4.1 on every grade list satisfying the
data-model invariants (is_match is 0.0 or 1.0, ranks are positive); the
empty input yields all-zero metrics with num_queries 0, and the two-grade
scenario yields match, recall and precision 1/2 with num_queries 2. -/
theorem C2_compute_matches_spec :
    (∀ grades : List Grade,
      (∀ g ∈ grades, g.is_match = 0 ∨ g.is_match = 1) →
      (∀ g ∈ grades, 1 ≤ g.rank) →
      compute_retrieval_metrics grades = spec_retrieval_metrics grades) ∧
    compute_retrieval_metrics [] = ⟨0, 0, 0, 0⟩ ∧
    compute_retrieval_metrics [⟨"q1", 1, 1⟩, ⟨"q2", 1, 0⟩] =
      ⟨1/2, 1/2, 1/2, 2⟩ := by
  refine ⟨compute_eq_spec, rfl, ?_⟩
  have hg : groupByQuery [⟨"q1", 1, 1⟩, ⟨"q2", 1, 0⟩] =
      [("q1", [⟨"q1", 1, 1⟩]), ("q2", [⟨"q2", 1, 0⟩])] := by
    simp [groupByQuery, addToGroup]
  rw [compute_retrieval_metrics, hg]
  simp [queryContribution, sortByRank, insertByRank, firstMatchRank, isMatchGrade,
    metricsFromContributions]

/-- Witness for claim C2: the equality with the reference aggregator at the
two-grade scenario input. -/
theorem C2_witness :
    compute_retrieval_metrics [⟨"q1", 1, 1⟩, ⟨"q2", 1, 0⟩] =
      spec_retrieval_metrics [⟨"q1", 1, 1⟩, ⟨"q2", 1, 0⟩] :=
  C2_compute_matches_spec.1 _
    (by intro g hg; fin_cases hg <;> norm_num)
    (by intro g hg; fin_cases hg <;> norm_num)

/-- Claim C3 (confirmed): compute_retrieval_metrics is invariant under any
permutation of its input list of grades. -/
theorem C3_perm_invariant :
    ∀ (l l' : List Grade), l.Perm l' →
      compute_retrieval_metrics l = compute_retrieval_metrics l' :=
  fun _ _ h => compute_retrieval_metrics_perm h

/-- Witness for claim C3 at a concrete two-element permutation. -/
theorem C3_witness :
    compute_retrieval_metrics [⟨"q1", 1, 1⟩, ⟨"q2", 1, 0⟩] =
      compute_retrieval_metrics [⟨"q2", 1, 0⟩, ⟨"q1", 1, 1⟩] :=
  C3_perm_invariant _ _ (List.Perm.swap _ _ _)

/-- Claim C4 (confirmed): PeopleGrader.grade is total over the judgment
outcome; its is_match score is always exactly 0 or 1, is the 0.5-threshold
of the parsed score on success, and is 0 on any fault. -/
theorem C4_grader_total_and_binary :
    ∀ (j : Except String PeopleGradeResult),
      (((PeopleGrader.grade j).scores.lookup isMatchKey = some 0) ∨
        ((PeopleGrader.grade j).scores.lookup isMatchKey = some 1)) ∧
      (∀ p, j = .ok p →
        (PeopleGrader.grade j).scores.lookup isMatchKey =
          some (if 1/2 ≤ p.score then 1 else 0)) ∧
      (∀ e, j = .error e →
        (PeopleGrader.grade j).scores.lookup isMatchKey = some 0) := by
  intro j
  cases j with
  | ok p =>
    refine ⟨?_, ?_, ?_⟩
    · by_cases h : (1 : ℚ)/2 ≤ p.score
      · right
        simp only [PeopleGrader.grade]
        rw [if_pos h]
        simp [List.lookup]
      · left
        simp only [PeopleGrader.grade]
        rw [if_neg h]
        simp [List.lookup]
    · intro p' hp
      cases hp
      simp [PeopleGrader.grade, List.lookup]
    · intro e he
      cases he
  | error e =>
    refine ⟨Or.inl ?_, ?_, ?_⟩
    · simp [PeopleGrader.grade, List.lookup]
    · intro p' hp
      cases hp
    · intro e' he
      simp [PeopleGrader.grade, List.lookup]

/-- Witness for claim C4: a successful judgment with score 3/4 yields
is_match 1. -/
theorem C4_witness :
    (PeopleGrader.grade (.ok ⟨"", 3/4⟩)).scores.lookup isMatchKey = some 1 := by
  have h := (C4_grader_total_and_binary (.ok ⟨"", 3/4⟩)).2.1 ⟨"", 3/4⟩ rfl
  rw [h]
  norm_num

/-- Claim C5 (confirmed): enrich_results returns the input unchanged when
the content fetch faults; on success every result keeps its url, title and
metadata, in the original order and length, and a result whose url is
absent from the fetched mapping keeps its original text. -/
theorem C5_enrich_best_effort :
    ∀ (fetch : List String → Except Unit (String → Option String))
      (results : List SearchResult),
      (fetch (urlsOf results) = .error () → enrich_results fetch results = results) ∧
      (∀ contents, fetch (urlsOf results) = .ok contents →
        List.Forall₂ (fun r r' : SearchResult =>
          r'.url = r.url ∧ r'.title = r.title ∧ r'.metadata = r.metadata ∧
            (contents r.url = none → r'.text = r.text))
          results (enrich_results fetch results)) := by
  intro fetch results
  constructor
  · intro herr
    unfold enrich_results
    rw [herr]
  · intro contents hok
    unfold enrich_results
    rw [hok]
    refine List.forall₂_map_right_iff.mpr (List.forall₂_same.mpr ?_)
    intro r _
    refine ⟨rfl, rfl, rfl, ?_⟩
    intro hnone
    simp [hnone]

/-- Witness for claim C5: a faulting fetch leaves a concrete result list
unchanged. -/
theorem C5_witness : enrich_results fetchFail [resultA] = [resultA] :=
  (C5_enrich_best_effort fetchFail [resultA]).1 rfl

/-- Claim C6 (confirmed): in the aggregation loop of Benchmark.run, a
searcher with at least one grade appears in the searchers mapping under its
name with the metrics computed by compute_retrieval_metrics from its full
grade list, and a searcher with zero grades is entirely absent. -/
theorem C6_report_entries :
    ∀ (allGrades : List (String × List Grade)) (name : String) (gs : List Grade),
      (allGrades.map Prod.fst).Nodup → (name, gs) ∈ allGrades →
      ((gs ≠ [] → (buildSearchers allGrades).lookup name =
          some (compute_retrieval_metrics gs)) ∧
        (gs = [] → name ∉ (buildSearchers allGrades).map Prod.fst)) := by
  intro allGrades name gs hnd hmem
  exact foldl_buildStep_lookup allGrades [] name gs hnd hmem (by simp)

/-- Witness for claim C6: with one graded and one grade-less searcher, the
first is present with its computed metrics and the second absent. -/
theorem C6_witness :
    (buildSearchers [(nameA, [gradeA]), (nameB, [])]).lookup nameA =
        some (compute_retrieval_metrics [gradeA]) ∧
      nameB ∉ (buildSearchers [(nameA, [gradeA]), (nameB, [])]).map Prod.fst := by
  constructor
  · exact (C6_report_entries [(nameA, [gradeA]), (nameB, [])] nameA [gradeA]
      (by decide) (by simp)).1 (by simp)
  · exact (C6_report_entries [(nameA, [gradeA]), (nameB, [])] nameB []
      (by decide) (by simp)).2 rfl

/-- Claim C7 (confirmed): with an empty query list, Benchmark.run completes
without a fault and returns the empty report, whose searchers mapping (as
read back through `.get("searchers", empty)`) is empty. -/
theorem C7_empty_queries :
    ∀ (searchers : List SearcherModel) (cfg : BenchmarkConfig)
      (fetch : List String → Except Unit (String → Option String))
      (judge : Query → Nat → SearchResult → Except String PeopleGradeResult),
      Benchmark.run searchers cfg fetch judge [] = .ok RunReport.empty ∧
        RunReport.searchersOf RunReport.empty = [] :=
  fun _ _ _ _ => ⟨rfl, rfl⟩

/-- Claim C8 (confirmed): the grades of one query carry ranks 1, 2, ..., n
in the original order of the searcher's result list, hence distinct and
positive, and all carry that query's query_id. -/
theorem C8_ranks :
    ∀ (judge : Nat → SearchResult → Except String PeopleGradeResult) (q : Query)
      (results : List SearchResult),
      ((Benchmark.grade judge q results).map (fun g => g.rank) =
        List.range' 1 results.length) ∧
      ((Benchmark.grade judge q results).map (fun g => g.rank)).Nodup ∧
      (∀ g ∈ Benchmark.grade judge q results, 0 < g.rank ∧ g.query_id = q.query_id) := by
  intro judge q results
  have hranks := gradeResults_ranks judge q 1 results
  refine ⟨hranks, ?_, ?_⟩
  · rw [show Benchmark.grade judge q results = gradeResults judge q 1 results from rfl,
      hranks]
    exact List.nodup_range' _ _
  · intro g hg
    constructor
    · have hmem : g.rank ∈ List.range' 1 results.length := by
        rw [← hranks]
        exact List.mem_map_of_mem _ hg
      have := List.mem_range'_1.mp hmem
      omega
    · exact gradeResults_query_id judge q 1 results g hg

/-- Witness for claim C8 at a one-result list. -/
theorem C8_witness :
    0 < (gradeOne judgeW qOne 1 resultA).rank ∧
      (gradeOne judgeW qOne 1 resultA).query_id = qOne.query_id :=
  (C8_ranks judgeW qOne [resultA]).2.2 _ (List.mem_singleton.mpr rfl)

/-- Claim C9 (confirmed on the semaphore transition model): in every state
reachable from the initial state under the acquire/release discipline of
Benchmark (per-searcher Semaphore(20) in _run_searcher, one process-wide
grading Semaphore(50) in __init__/_grade), at most 20 query units of any
one searcher and at most 50 grading units are active at once. -/
theorem C9_semaphore_bounds :
    ∀ (qowners : List Nat) (ngrade : Nat) (s : BenchState),
      BenchReachable 20 50 (BenchInit qowners ngrade) s →
      (∀ k, qActive s k ≤ 20) ∧ gActive s ≤ 50 :=
  fun _ _ _ h => benchReachable_invariant h

/-- Witness for claim C9: the 100-query initial state of a single searcher
satisfies the per-searcher bound. -/
theorem C9_witness :
    qActive (BenchInit (List.replicate 100 0) 50) 0 ≤ 20 :=
  (C9_semaphore_bounds (List.replicate 100 0) 50 _ Relation.ReflTransGen.refl).1 0

/-- Claim C10 (confirmed): the collection loop of ParallelSearcher.search
returns at most n results, namely the transforms of the first n raw
results in provider order. -/
theorem C10_parallel_truncates :
    ∀ {α : Type} (f : Nat → α → SearchResult) (n : Nat) (raws : List α),
      (ParallelSearcher.searchResults f n raws).length ≤ n ∧
      ParallelSearcher.searchResults f n raws = (raws.take n).mapIdx f := by
  intro α f n raws
  have heq : ParallelSearcher.searchResults f n raws = (raws.take n).mapIdx f := by
    unfold ParallelSearcher.searchResults
    rw [parallelCollect_eq f n 0 raws]
    simp
  refine ⟨?_, heq⟩
  calc (ParallelSearcher.searchResults f n raws).length
      = ((raws.take n).mapIdx f).length := by rw [heq]
    _ = (raws.take n).length := by rw [List.length_mapIdx]
    _ ≤ n := by
        rw [List.length_take]
        exact min_le_left _ _
